import Mathlib

/-!
Verification of the ruuvi_bridge ingestion pipeline (src/main.rs).

The development shallowly embeds the program:

* the CRC-32 checksum validator and the sensor-protocol decoder of
  `got_message`, as an event-trace producing function plus a state
  transformer over a registry/metrics state;
* the sensor registry (`HashMap<[u8; 6], Instant>`) as an association
  list with the `entry().and_modify().or_insert()` update discipline,
  and the periodic expiry sweep;
* the byte-stream frame extractor of `arduino_bridge` as an explicit
  finite state machine;
* the `mac_string` label rendering.

Bytes are modelled as `Nat` (with explicit `% 256` where the Rust code
truncates), timestamps as `Nat` seconds, and the `f64` metric values as
exact rationals computed by the same formulas.
-/

/-- The four metric families kept by the program
(`room_temperature`, `humidity`, `air_pressure`, `sensor_battery`). -/
inductive Quantity where
  | temperature
  | humidity
  | pressure
  | battery
deriving DecidableEq, Repr

/-- One observable instruction issued by the pipeline: a registry touch
(insert-or-refresh of a deadline) or a metric set/clear keyed by
(label, quantity). -/
inductive Event where
  | touch (mac : List Nat) (deadline : Nat)
  | setM (q : Quantity) (lbl : String) (v : ℚ)
  | clearM (q : Quantity) (lbl : String)
deriving DecidableEq, Repr

/-- The sensor registry: `HashMap<[u8; 6], Instant>` modelled as an
association list from 6-byte identities to expiry deadlines. -/
abbrev Registry : Type := List (List Nat × Nat)

/-- The metric store: for each (label, quantity), an optional gauge value. -/
abbrev Metrics : Type := String → Quantity → Option ℚ

/-- Joint state of the registry and the exported metrics. -/
structure SystemState where
  sensors : Registry
  metrics : Metrics

/-- Initial state: empty registry, no metric values. -/
def emptyState : SystemState := ⟨[], fun _ _ => none⟩

/-- The `entry(mac).and_modify(|e| *e = d).or_insert(d)` discipline:
update the entry in place when the key is present, append it otherwise. -/
def touchList : Registry → List Nat → Nat → Registry
  | [], k, d => [(k, d)]
  | (k0, d0) :: rest, k, d =>
      if k0 = k then (k0, d) :: rest else (k0, d0) :: touchList rest k d

/-- Lookup of a key's deadline in the registry. -/
def lookupKey : Registry → List Nat → Option Nat
  | [], _ => none
  | (k0, d0) :: rest, k => if k0 = k then some d0 else lookupKey rest k

/-- Number of entries carrying a given key. -/
def countKey (r : Registry) (k : List Nat) : Nat :=
  (r.filter (fun p => decide (p.1 = k))).length

/-- Apply one instruction to the joint state. -/
def applyEvent (st : SystemState) (e : Event) : SystemState :=
  match e with
  | .touch mac d => ⟨touchList st.sensors mac d, st.metrics⟩
  | .setM q lbl v =>
      ⟨st.sensors, fun l0 q0 => if l0 = lbl ∧ q0 = q then some v else st.metrics l0 q0⟩
  | .clearM q lbl =>
      ⟨st.sensors, fun l0 q0 => if l0 = lbl ∧ q0 = q then none else st.metrics l0 q0⟩

/-- Lowercase hex digit characters, as produced by `format!("{:x}", _)`. -/
def hexChar (d : Nat) : Char :=
  if d = 0 then '0' else if d = 1 then '1' else if d = 2 then '2'
  else if d = 3 then '3' else if d = 4 then '4' else if d = 5 then '5'
  else if d = 6 then '6' else if d = 7 then '7' else if d = 8 then '8'
  else if d = 9 then '9' else if d = 10 then 'a' else if d = 11 then 'b'
  else if d = 12 then 'c' else if d = 13 then 'd' else if d = 14 then 'e'
  else 'f'

/-- Hex digits of `n`, most significant first, no zero padding, empty for 0
(fuel-based recursion; the fuel `n` itself always suffices). -/
def hexStrAux : Nat → Nat → List Char
  | 0, _ => []
  | fuel + 1, n => if n = 0 then [] else hexStrAux fuel (n / 16) ++ [hexChar (n % 16)]

/-- Rendering of `format!("{:x}", n)`: lowercase hex without zero
padding (0 renders "0"). -/
def hexStr (n : Nat) : List Char := if n = 0 then ['0'] else hexStrAux n n

/-- Character data of `mac_string`: the six octets rendered unpadded and
joined by colons, per `format!("{:x}:{:x}:{:x}:{:x}:{:x}:{:x}", ...)`. -/
def macChars (mac : List Nat) : List Char :=
  hexStr (mac.getD 0 0) ++ ':' :: hexStr (mac.getD 1 0) ++ ':' :: hexStr (mac.getD 2 0)
    ++ ':' :: hexStr (mac.getD 3 0) ++ ':' :: hexStr (mac.getD 4 0)
    ++ ':' :: hexStr (mac.getD 5 0)

/-- The `mac_string` function: the metric label of a hardware identity. -/
def macString (mac : List Nat) : String := ⟨macChars mac⟩

/-- One round of the bitwise CRC-32 update (reflected polynomial
0xEDB88320, as used by the `crc32fast` crate / IEEE 802.3). -/
def crcStep (c : Nat) : Nat :=
  if c % 2 = 1 then (c / 2) ^^^ 0xEDB88320 else c / 2

/-- Iterate `crcStep`. -/
def crcRounds : Nat → Nat → Nat
  | 0, c => c
  | k + 1, c => crcRounds k (crcStep c)

/-- CRC-32 update by one input byte. -/
def crcByte (c b : Nat) : Nat := crcRounds 8 (c ^^^ b)

/-- CRC-32 (IEEE 802.3 / `crc32fast::Hasher`) of a byte list. -/
def crc32 (l : List Nat) : Nat :=
  (l.foldl crcByte 0xFFFFFFFF) ^^^ 0xFFFFFFFF

/-- Byte at index `i`, 0 when out of range. -/
def byteAt (p : List Nat) (i : Nat) : Nat := p.getD i 0

/-- Big-endian `u32::from_be_bytes` of the first four bytes. -/
def beBytes4 (m : List Nat) : Nat :=
  byteAt m 0 * 16777216 + byteAt m 1 * 65536 + byteAt m 2 * 256 + byteAt m 3

/-- Big-endian `i16::from_be_bytes` of two bytes, as a mathematical integer. -/
def toI16 (b0 b1 : Nat) : Int :=
  if b0 * 256 + b1 < 32768 then (b0 * 256 + b1 : Int) else (b0 * 256 + b1 : Int) - 65536

/-- Big-endian `u16::from_be_bytes` of two bytes. -/
def toU16 (b0 b1 : Nat) : Nat := b0 * 256 + b1

/-- The reserved all-ones 6-byte identity (`[0xff; 6]`, "no address"). -/
def ffMac : List Nat := [255, 255, 255, 255, 255, 255]

/-- The 6-byte hardware identity of a validated payload
(payload offsets 20..25, i.e. `msg[24..30]`). -/
def macOf (p : List Nat) : List Nat := (p.drop 20).take 6

/-- The temperature instruction: clear on the `i16::MIN` sentinel, else
set `raw as f64 * 0.005`. -/
def tempEvent (b0 b1 : Nat) (lbl : String) : Event :=
  if toI16 b0 b1 = -32768 then Event.clearM Quantity.temperature lbl
  else Event.setM Quantity.temperature lbl ((toI16 b0 b1 : ℚ) * (5 / 1000))

/-- The humidity instruction: clear on the `u16::MAX` sentinel, else
set `raw as f64 * 0.0025`. -/
def humidityEvent (b0 b1 : Nat) (lbl : String) : Event :=
  if toU16 b0 b1 = 65535 then Event.clearM Quantity.humidity lbl
  else Event.setM Quantity.humidity lbl ((toU16 b0 b1 : ℚ) * (25 / 10000))

/-- The pressure instruction: clear on the `u16::MAX` sentinel, else
set `raw as f64 / 1000.0 + 50.0`. -/
def pressureEvent (b0 b1 : Nat) (lbl : String) : Event :=
  if toU16 b0 b1 = 65535 then Event.clearM Quantity.pressure lbl
  else Event.setM Quantity.pressure lbl ((toU16 b0 b1 : ℚ) / 1000 + 50)

/-- The battery instruction: clear when the top 11 bits are all ones
(`raw >> 5 == 2047`), else set `(raw >> 5) as f64 / 1000.0 + 1.6`. -/
def batteryEvent (b0 b1 : Nat) (lbl : String) : Event :=
  if toU16 b0 b1 >>> 5 = 2047 then Event.clearM Quantity.battery lbl
  else Event.setM Quantity.battery lbl (((toU16 b0 b1 >>> 5 : Nat) : ℚ) / 1000 + 8 / 5)

/-- The Sensor Protocol Decoder on a validated payload (the bytes after
the checksum, i.e. `msg[4..]`): instructions issued by the body of
`got_message` at time `t`.  In payload coordinates the code's guard
`msg.len() >= 30 && msg[4] == 0x99 && msg[5] == 0x04 && msg[6] == 5`
reads: length at least 26 and tag bytes 0x99 0x04 0x05. -/
def decodeEvents (p : List Nat) (t : Nat) : List Event :=
  if 26 ≤ p.length ∧ byteAt p 0 = 153 ∧ byteAt p 1 = 4 ∧ byteAt p 2 = 5 then
    if macOf p = ffMac then []
    else
      Event.touch (macOf p) (t + 300) ::
      tempEvent (byteAt p 3) (byteAt p 4) (macString (macOf p)) ::
      humidityEvent (byteAt p 5) (byteAt p 6) (macString (macOf p)) ::
      pressureEvent (byteAt p 7) (byteAt p 8) (macString (macOf p)) ::
      batteryEvent (byteAt p 15) (byteAt p 16) (macString (macOf p)) :: []
  else []

/-- State transformer of the decoder on a validated payload. -/
def decodeState (p : List Nat) (t : Nat) (st : SystemState) : SystemState :=
  (decodeEvents p t).foldl applyEvent st

/-- Instructions issued by `got_message` on a raw delivered buffer `m` at
time `t`: checksum validation followed by decoding, with the absolute
offsets used by the code (`msg[4..7]` tag, `msg[7..9]` temperature,
`msg[9..11]` humidity, `msg[11..13]` pressure, `msg[19..21]` power,
`msg[24..30]` identity). -/
def gotMessageEvents (m : List Nat) (t : Nat) : List Event :=
  if m.length < 4 then []
  else if beBytes4 m ≠ crc32 (m.drop 4) then []
  else if 30 ≤ m.length ∧ byteAt m 4 = 153 ∧ byteAt m 5 = 4 ∧ byteAt m 6 = 5 then
    if (m.drop 24).take 6 = ffMac then []
    else
      Event.touch ((m.drop 24).take 6) (t + 300) ::
      tempEvent (byteAt m 7) (byteAt m 8) (macString ((m.drop 24).take 6)) ::
      humidityEvent (byteAt m 9) (byteAt m 10) (macString ((m.drop 24).take 6)) ::
      pressureEvent (byteAt m 11) (byteAt m 12) (macString ((m.drop 24).take 6)) ::
      batteryEvent (byteAt m 19) (byteAt m 20) (macString ((m.drop 24).take 6)) :: []
  else []

/-- State transformer of `got_message`. -/
def gotMessageState (m : List Nat) (t : Nat) (st : SystemState) : SystemState :=
  (gotMessageEvents m t).foldl applyEvent st

/-- The four clear instructions issued for one expired identity
(`ROOM_TEMPERATURE`, `HUMIDITY`, `PRESSURE`, `BATTERY` in code order). -/
def clearAllEvents (mac : List Nat) : List Event :=
  [Event.clearM Quantity.temperature (macString mac),
   Event.clearM Quantity.humidity (macString mac),
   Event.clearM Quantity.pressure (macString mac),
   Event.clearM Quantity.battery (macString mac)]

/-- Instructions issued by one sweep at time `now`: all four clears for
every entry whose deadline is strictly below `now`. -/
def sweepEvents (r : Registry) (now : Nat) : List Event :=
  ((r.filter (fun p => decide (p.2 < now))).map (fun p => clearAllEvents p.1)).flatten

/-- One sweep iteration: clear the metrics of every expired identity,
then `retain(|_, expiry| expiry >= now)` on the registry. -/
def sweepState (st : SystemState) (now : Nat) : SystemState :=
  let st1 := (sweepEvents st.sensors now).foldl applyEvent st
  ⟨st1.sensors.filter (fun p => decide (now ≤ p.2)), st1.metrics⟩

/-- The reachable states of the whole system: the empty initial state,
closed under message ingestion and sweeps. -/
inductive Reachable : SystemState → Prop where
  | init : Reachable emptyState
  | msg (m : List Nat) (t : Nat) {st : SystemState} :
      Reachable st → Reachable (gotMessageState m t st)
  | sweep (now : Nat) {st : SystemState} :
      Reachable st → Reachable (sweepState st now)

/-- The states of the frame extractor in `arduino_bridge`. -/
inductive ReadState where
  | Interstitial
  | Open1
  | Open2
  | Nibble1
  | Nibble2
  | Close1
  | Close2
deriving DecidableEq, Repr

/-- Full scanning state: control state, pending high nibble `n`, and the
accumulated decoded buffer `msg`. -/
structure ExtState where
  st : ReadState
  n : Nat
  msg : List Nat
deriving DecidableEq, Repr

/-- The `nibble` function: accepted digit classes `0x30..=0x39`,
`0x41..=0x4f`, `0x61..=0x6f` with their decoded values. -/
def nibble (b : Nat) : Option Nat :=
  if 0x30 ≤ b ∧ b ≤ 0x39 then some (b - 0x30)
  else if 0x41 ≤ b ∧ b ≤ 0x4f then some (b - 55)
  else if 0x61 ≤ b ∧ b ≤ 0x6f then some (b - 87)
  else none

/-- One byte of the extractor state machine; the second component is the
buffer handed to `got_message` when a frame completes.  Open marker byte
is 123 (`{`), close marker byte 125 (`}`); the pushed byte is
`n << 4 | nn` on `u8`, hence the explicit `% 256`. -/
def extStep (s : ExtState) (b : Nat) : ExtState × Option (List Nat) :=
  match s.st with
  | .Interstitial =>
      (⟨if b = 123 then .Open1 else .Interstitial, s.n, s.msg⟩, none)
  | .Open1 =>
      (⟨if b = 123 then .Open2 else .Interstitial, s.n, s.msg⟩, none)
  | .Open2 =>
      if b = 123 then (⟨.Nibble1, s.n, []⟩, none)
      else (⟨.Interstitial, s.n, s.msg⟩, none)
  | .Nibble1 =>
      match nibble b with
      | some nn => (⟨.Nibble2, nn, s.msg⟩, none)
      | none =>
          if b = 125 then (⟨.Close1, s.n, s.msg⟩, none)
          else (⟨.Interstitial, s.n, s.msg⟩, none)
  | .Nibble2 =>
      match nibble b with
      | some nn =>
          (⟨if (s.msg ++ [(s.n <<< 4) % 256 ||| nn]).length < 500 then .Nibble1
            else .Interstitial, s.n, s.msg ++ [(s.n <<< 4) % 256 ||| nn]⟩, none)
      | none => (⟨.Interstitial, s.n, s.msg⟩, none)
  | .Close1 =>
      if b = 125 then (⟨.Close2, s.n, s.msg⟩, none)
      else (⟨.Interstitial, s.n, s.msg⟩, none)
  | .Close2 =>
      if b = 125 then (⟨.Interstitial, s.n, s.msg⟩, some s.msg)
      else (⟨.Interstitial, s.n, s.msg⟩, none)

/-- Run the extractor over a byte list, collecting delivered buffers. -/
def extRun : ExtState → List Nat → ExtState × List (List Nat)
  | s, [] => (s, [])
  | s, b :: rest =>
      ((extRun (extStep s b).1 rest).1,
        (extStep s b).2.toList ++ (extRun (extStep s b).1 rest).2)

/-- Initial extractor state (`ReadState::Interstitial`, `n = 0`, empty buffer). -/
def extInit : ExtState := ⟨.Interstitial, 0, []⟩

/-- All buffers delivered to `got_message` while scanning a byte list. -/
def extract (l : List Nat) : List (List Nat) := (extRun extInit l).2

/-- Decoded payload of a list of accepted digit bytes, paired as the
extractor pairs them (`n << 4 | nn` on `u8`). -/
def decodePairs : List Nat → List Nat
  | a :: b :: rest =>
      (((nibble a).getD 0 <<< 4) % 256 ||| (nibble b).getD 0) :: decodePairs rest
  | _ => []

/-- A sample accepted validated payload: length 26, tag 0x99 0x04 0x05,
temperature raw 1, humidity raw 0, pressure raw 0, power raw 0,
identity 01:02:03:04:05:06. -/
def samplePayload : List Nat :=
  [153, 4, 5, 0, 1, 0, 0, 0, 0, 0, 0, 0, 0, 0, 0, 0, 0, 0, 0, 0, 1, 2, 3, 4, 5, 6]

/-- The sample payload prefixed with its correct big-endian CRC-32,
giving a full 30-byte delivered buffer. -/
def sampleMsg : List Nat := [209, 205, 165, 162] ++ samplePayload

/-- The sample payload with the reserved all-ones identity. -/
def ffPayload : List Nat :=
  [153, 4, 5, 0, 1, 0, 0, 0, 0, 0, 0, 0, 0, 0, 0, 0, 0, 0, 0, 0,
   255, 255, 255, 255, 255, 255]

theorem decodeEvents_accept {p : List Nat} (t : Nat)
    (hc : 26 ≤ p.length ∧ byteAt p 0 = 153 ∧ byteAt p 1 = 4 ∧ byteAt p 2 = 5)
    (hmac : macOf p ≠ ffMac) :
    decodeEvents p t =
      Event.touch (macOf p) (t + 300) ::
      tempEvent (byteAt p 3) (byteAt p 4) (macString (macOf p)) ::
      humidityEvent (byteAt p 5) (byteAt p 6) (macString (macOf p)) ::
      pressureEvent (byteAt p 7) (byteAt p 8) (macString (macOf p)) ::
      batteryEvent (byteAt p 15) (byteAt p 16) (macString (macOf p)) :: [] := by
  rw [decodeEvents, if_pos hc, if_neg hmac]

theorem metrics_touch (st : SystemState) (mac : List Nat) (d : Nat) :
    (applyEvent st (Event.touch mac d)).metrics = st.metrics := rfl

theorem sensors_touch (st : SystemState) (mac : List Nat) (d : Nat) :
    (applyEvent st (Event.touch mac d)).sensors = touchList st.sensors mac d := rfl

theorem tempEvent_sensors (st : SystemState) (b0 b1 : Nat) (lbl : String) :
    (applyEvent st (tempEvent b0 b1 lbl)).sensors = st.sensors := by
  unfold tempEvent; split <;> rfl

theorem humidityEvent_sensors (st : SystemState) (b0 b1 : Nat) (lbl : String) :
    (applyEvent st (humidityEvent b0 b1 lbl)).sensors = st.sensors := by
  unfold humidityEvent; split <;> rfl

theorem pressureEvent_sensors (st : SystemState) (b0 b1 : Nat) (lbl : String) :
    (applyEvent st (pressureEvent b0 b1 lbl)).sensors = st.sensors := by
  unfold pressureEvent; split <;> rfl

theorem batteryEvent_sensors (st : SystemState) (b0 b1 : Nat) (lbl : String) :
    (applyEvent st (batteryEvent b0 b1 lbl)).sensors = st.sensors := by
  unfold batteryEvent; split <;> rfl

theorem tempEvent_metrics_self (st : SystemState) (b0 b1 : Nat) (lbl : String) :
    (applyEvent st (tempEvent b0 b1 lbl)).metrics lbl Quantity.temperature =
      if toI16 b0 b1 = -32768 then none
      else some ((toI16 b0 b1 : ℚ) * (5 / 1000)) := by
  unfold tempEvent; split <;> simp [applyEvent]

theorem humidityEvent_metrics_self (st : SystemState) (b0 b1 : Nat) (lbl : String) :
    (applyEvent st (humidityEvent b0 b1 lbl)).metrics lbl Quantity.humidity =
      if toU16 b0 b1 = 65535 then none
      else some ((toU16 b0 b1 : ℚ) * (25 / 10000)) := by
  unfold humidityEvent; split <;> simp [applyEvent]

theorem pressureEvent_metrics_self (st : SystemState) (b0 b1 : Nat) (lbl : String) :
    (applyEvent st (pressureEvent b0 b1 lbl)).metrics lbl Quantity.pressure =
      if toU16 b0 b1 = 65535 then none
      else some ((toU16 b0 b1 : ℚ) / 1000 + 50) := by
  unfold pressureEvent; split <;> simp [applyEvent]

theorem batteryEvent_metrics_self (st : SystemState) (b0 b1 : Nat) (lbl : String) :
    (applyEvent st (batteryEvent b0 b1 lbl)).metrics lbl Quantity.battery =
      if toU16 b0 b1 >>> 5 = 2047 then none
      else some (((toU16 b0 b1 >>> 5 : Nat) : ℚ) / 1000 + 8 / 5) := by
  unfold batteryEvent; split <;> simp [applyEvent]

theorem tempEvent_metrics_ne (st : SystemState) (b0 b1 : Nat) (lbl l0 : String)
    (q0 : Quantity) (h : q0 ≠ Quantity.temperature) :
    (applyEvent st (tempEvent b0 b1 lbl)).metrics l0 q0 = st.metrics l0 q0 := by
  unfold tempEvent; split <;> simp [applyEvent, h]

theorem humidityEvent_metrics_ne (st : SystemState) (b0 b1 : Nat) (lbl l0 : String)
    (q0 : Quantity) (h : q0 ≠ Quantity.humidity) :
    (applyEvent st (humidityEvent b0 b1 lbl)).metrics l0 q0 = st.metrics l0 q0 := by
  unfold humidityEvent; split <;> simp [applyEvent, h]

theorem pressureEvent_metrics_ne (st : SystemState) (b0 b1 : Nat) (lbl l0 : String)
    (q0 : Quantity) (h : q0 ≠ Quantity.pressure) :
    (applyEvent st (pressureEvent b0 b1 lbl)).metrics l0 q0 = st.metrics l0 q0 := by
  unfold pressureEvent; split <;> simp [applyEvent, h]

theorem batteryEvent_metrics_ne (st : SystemState) (b0 b1 : Nat) (lbl l0 : String)
    (q0 : Quantity) (h : q0 ≠ Quantity.battery) :
    (applyEvent st (batteryEvent b0 b1 lbl)).metrics l0 q0 = st.metrics l0 q0 := by
  unfold batteryEvent; split <;> simp [applyEvent, h]

/-- C1 (amended): the decoder processes a validated payload if and only
if its length is at least 26 bytes (the code checks the whole buffer,
checksum included, against 30) and its first three bytes are the tag
0x99 0x04 0x05; any other tag or shorter length is a silent no-op (no
instruction is issued and the state is unchanged), and every accepted
payload with a valid identity issues at least one instruction. -/
theorem decoder_gate (p : List Nat) (t : Nat) :
    (¬(26 ≤ p.length ∧ byteAt p 0 = 153 ∧ byteAt p 1 = 4 ∧ byteAt p 2 = 5) →
      decodeEvents p t = [] ∧ ∀ st : SystemState, decodeState p t st = st) ∧
    ((26 ≤ p.length ∧ byteAt p 0 = 153 ∧ byteAt p 1 = 4 ∧ byteAt p 2 = 5) →
      macOf p ≠ ffMac → decodeEvents p t ≠ []) := by
  constructor
  · intro hc
    have he : decodeEvents p t = [] := by rw [decodeEvents, if_neg hc]
    exact ⟨he, fun st => by rw [decodeState, he]; rfl⟩
  · intro hc hmac
    rw [decodeEvents_accept t hc hmac]
    simp

set_option maxRecDepth 40000 in
/-- C1 counterexample: a validated payload of length 26 (< 30) with the
correct format tag is not a no-op — the code's length check is on the
buffer including the 4-byte checksum, so payloads of 26..29 bytes are
decoded, contrary to the claim's 30-byte bound on the payload. -/
theorem decoder_gate_cex :
    samplePayload.length < 30 ∧
      decodeState samplePayload 0 emptyState ≠ emptyState ∧
      sampleMsg.drop 4 = samplePayload ∧
      gotMessageState sampleMsg 0 emptyState ≠ emptyState := by
  refine ⟨by decide, fun h => ?_, by decide, fun h => ?_⟩
  · have h1 : (decodeState samplePayload 0 emptyState).metrics
        (macString (macOf samplePayload)) Quantity.temperature ≠ none := by decide
    rw [h] at h1
    exact h1 rfl
  · have h1 : (gotMessageState sampleMsg 0 emptyState).metrics
        (macString (macOf samplePayload)) Quantity.temperature ≠ none := by decide
    rw [h] at h1
    exact h1 rfl

/-- C1 witness: a payload with a wrong tag is a silent no-op, and the
sample accepted payload issues instructions. -/
theorem decoder_gate_witness :
    decodeState [1, 2, 3] 0 emptyState = emptyState ∧
      decodeEvents samplePayload 0 ≠ [] :=
  ⟨((decoder_gate [1, 2, 3] 0).1 (by decide)).2 emptyState,
   (decoder_gate samplePayload 0).2 (by decide) (by decide)⟩

/-- C2: for every accepted payload (length, tag and identity valid), each
quantity is decoded big-endian at its fixed payload offset (temperature
signed 16-bit at 3, humidity unsigned at 5, pressure unsigned at 7,
power unsigned at 15); the sentinel raw value clears the metric for
(identity, quantity) and any other raw value sets it to the scaled
value: raw * 0.005, raw * 0.0025, raw / 1000 + 50, (raw >> 5) / 1000 + 1.6. -/
theorem decoder_quantities (p : List Nat) (t : Nat) (st : SystemState)
    (_hb : ∀ b ∈ p, b < 256)
    (hlen : 26 ≤ p.length)
    (htag : byteAt p 0 = 153 ∧ byteAt p 1 = 4 ∧ byteAt p 2 = 5)
    (hmac : macOf p ≠ ffMac) :
    ((decodeState p t st).metrics (macString (macOf p)) Quantity.temperature =
      if toI16 (byteAt p 3) (byteAt p 4) = -32768 then none
      else some ((toI16 (byteAt p 3) (byteAt p 4) : ℚ) * (5 / 1000))) ∧
    ((decodeState p t st).metrics (macString (macOf p)) Quantity.humidity =
      if toU16 (byteAt p 5) (byteAt p 6) = 65535 then none
      else some ((toU16 (byteAt p 5) (byteAt p 6) : ℚ) * (25 / 10000))) ∧
    ((decodeState p t st).metrics (macString (macOf p)) Quantity.pressure =
      if toU16 (byteAt p 7) (byteAt p 8) = 65535 then none
      else some ((toU16 (byteAt p 7) (byteAt p 8) : ℚ) / 1000 + 50)) ∧
    ((decodeState p t st).metrics (macString (macOf p)) Quantity.battery =
      if toU16 (byteAt p 15) (byteAt p 16) >>> 5 = 2047 then none
      else some (((toU16 (byteAt p 15) (byteAt p 16) >>> 5 : Nat) : ℚ) / 1000 + 8 / 5)) := by
  rw [decodeState, decodeEvents_accept t ⟨hlen, htag⟩ hmac]
  simp only [List.foldl_cons, List.foldl_nil]
  refine ⟨?_, ?_, ?_, ?_⟩
  · rw [batteryEvent_metrics_ne _ _ _ _ _ _ (by decide),
      pressureEvent_metrics_ne _ _ _ _ _ _ (by decide),
      humidityEvent_metrics_ne _ _ _ _ _ _ (by decide),
      tempEvent_metrics_self]
  · rw [batteryEvent_metrics_ne _ _ _ _ _ _ (by decide),
      pressureEvent_metrics_ne _ _ _ _ _ _ (by decide),
      humidityEvent_metrics_self]
  · rw [batteryEvent_metrics_ne _ _ _ _ _ _ (by decide),
      pressureEvent_metrics_self]
  · rw [batteryEvent_metrics_self]

/-- C2 witness at the sample payload: temperature raw 1 is set to 0.005. -/
theorem decoder_quantities_witness :
    (decodeState samplePayload 0 emptyState).metrics
        (macString (macOf samplePayload)) Quantity.temperature =
      if toI16 (byteAt samplePayload 3) (byteAt samplePayload 4) = -32768 then none
      else some ((toI16 (byteAt samplePayload 3) (byteAt samplePayload 4) : ℚ) * (5 / 1000)) :=
  (decoder_quantities samplePayload 0 emptyState
    (by decide) (by decide) (by decide) (by decide)).1

theorem byteAt_drop : ∀ (n : Nat) (m : List Nat) (k : Nat),
    byteAt (m.drop n) k = byteAt m (n + k)
  | 0, m, k => by simp [byteAt]
  | n + 1, [], k => by simp [byteAt, List.getD]
  | n + 1, a :: rest, k => by
      have h : n + 1 + k = (n + k) + 1 := by omega
      show byteAt (rest.drop n) k = byteAt (a :: rest) (n + 1 + k)
      rw [h]
      show byteAt (rest.drop n) k = byteAt rest (n + k)
      exact byteAt_drop n rest k

/-- C8: the checksum validator drops buffers shorter than 4 bytes with no
effect, drops buffers whose first 4 bytes (big-endian) disagree with the
CRC-32 of the rest with no effect, and on agreement forwards exactly the
remaining bytes (the buffer minus its first 4 bytes) to the decoder. -/
theorem checksum_validator (m : List Nat) (t : Nat) (st : SystemState) :
    (m.length < 4 → gotMessageState m t st = st) ∧
    (4 ≤ m.length → beBytes4 m ≠ crc32 (m.drop 4) → gotMessageState m t st = st) ∧
    (4 ≤ m.length → beBytes4 m = crc32 (m.drop 4) →
      gotMessageEvents m t = decodeEvents (m.drop 4) t) := by
  refine ⟨?_, ?_, ?_⟩
  · intro h4
    rw [gotMessageState, gotMessageEvents, if_pos h4]
    rfl
  · intro h4 hcrc
    rw [gotMessageState, gotMessageEvents, if_neg (by omega), if_pos hcrc]
    rfl
  · intro h4 hcrc
    rw [gotMessageEvents, if_neg (by omega), if_neg (fun hne => hne hcrc),
      decodeEvents]
    have hmac : macOf (m.drop 4) = (m.drop 24).take 6 := by
      rw [macOf, List.drop_drop]
    have e0 : byteAt (List.drop 4 m) 0 = byteAt m 4 := byteAt_drop 4 m 0
    have e1 : byteAt (List.drop 4 m) 1 = byteAt m 5 := byteAt_drop 4 m 1
    have e2 : byteAt (List.drop 4 m) 2 = byteAt m 6 := byteAt_drop 4 m 2
    have e3 : byteAt (List.drop 4 m) 3 = byteAt m 7 := byteAt_drop 4 m 3
    have e4 : byteAt (List.drop 4 m) 4 = byteAt m 8 := byteAt_drop 4 m 4
    have e5 : byteAt (List.drop 4 m) 5 = byteAt m 9 := byteAt_drop 4 m 5
    have e6 : byteAt (List.drop 4 m) 6 = byteAt m 10 := byteAt_drop 4 m 6
    have e7 : byteAt (List.drop 4 m) 7 = byteAt m 11 := byteAt_drop 4 m 7
    have e8 : byteAt (List.drop 4 m) 8 = byteAt m 12 := byteAt_drop 4 m 8
    have e15 : byteAt (List.drop 4 m) 15 = byteAt m 19 := byteAt_drop 4 m 15
    have e16 : byteAt (List.drop 4 m) 16 = byteAt m 20 := byteAt_drop 4 m 16
    simp only [hmac, e0, e1, e2, e3, e4, e5, e6, e7, e8, e15, e16,
      List.length_drop]
    have hiff : (26 ≤ m.length - 4) ↔ (30 ≤ m.length) := by omega
    rw [if_congr (and_congr hiff Iff.rfl) rfl rfl]

/-- C8 witness: a one-byte buffer is dropped with no effect, and a buffer
whose checksum field matches forwards exactly the remaining bytes. -/
theorem checksum_validator_witness :
    gotMessageState [1] 0 emptyState = emptyState ∧
      gotMessageEvents [0, 0, 0, 0] 0 = decodeEvents [] 0 :=
  ⟨(checksum_validator [1] 0 emptyState).1 (by decide),
   (checksum_validator [0, 0, 0, 0] 0 emptyState).2.2 (by decide) (by decide)⟩

theorem lookupKey_touchList_self : ∀ (r : Registry) (k : List Nat) (d : Nat),
    lookupKey (touchList r k d) k = some d
  | [], k, d => by simp [touchList, lookupKey]
  | (k0, d0) :: rest, k, d => by
      by_cases h : k0 = k
      · simp [touchList, lookupKey, h]
      · simp [touchList, lookupKey, h, lookupKey_touchList_self rest k d]

theorem countKey_zero_of_not_mem : ∀ (r : Registry) (k : List Nat),
    k ∉ r.map Prod.fst → countKey r k = 0
  | [], k, _ => rfl
  | (k0, d0) :: rest, k, h => by
      have h0 : k0 ≠ k := fun he => h (by rw [List.map_cons, he]; exact List.mem_cons_self _ _)
      have h1 : k ∉ rest.map Prod.fst := fun hm => h (by rw [List.map_cons]; exact List.mem_cons_of_mem _ hm)
      have h2 : countKey rest k = 0 := countKey_zero_of_not_mem rest k h1
      simp only [countKey, List.filter_cons, decide_eq_true_eq, if_neg h0] at *
      exact h2

theorem keys_touchList : ∀ (r : Registry) (k : List Nat) (d : Nat) (x : List Nat),
    x ∈ (touchList r k d).map Prod.fst → x ∈ r.map Prod.fst ∨ x = k
  | [], k, d, x => by simp [touchList]
  | (k0, d0) :: rest, k, d, x => by
      by_cases h : k0 = k
      · simp [touchList, h]
        rintro (h1 | h1) <;> simp [h1]
      · simp only [touchList, if_neg h, List.map_cons, List.mem_cons]
        rintro (h1 | h1)
        · simp [h1]
        · rcases keys_touchList rest k d x h1 with h2 | h2 <;> simp [h2]

theorem touchList_keys_nodup : ∀ (r : Registry) (k : List Nat) (d : Nat),
    (r.map Prod.fst).Nodup → ((touchList r k d).map Prod.fst).Nodup
  | [], k, d, _ => by simp [touchList]
  | (k0, d0) :: rest, k, d, h => by
      simp only [List.map_cons, List.nodup_cons] at h
      by_cases hk : k0 = k
      · simp only [touchList, if_pos hk, List.map_cons, List.nodup_cons]
        exact h
      · simp only [touchList, if_neg hk, List.map_cons, List.nodup_cons]
        refine ⟨fun hmem => ?_, touchList_keys_nodup rest k d h.2⟩
        rcases keys_touchList rest k d k0 hmem with h2 | h2
        · exact h.1 h2
        · exact hk h2

theorem countKey_touchList_self : ∀ (r : Registry) (k : List Nat) (d : Nat),
    (r.map Prod.fst).Nodup → countKey (touchList r k d) k = 1
  | [], k, d, _ => by simp [touchList, countKey, List.filter]
  | (k0, d0) :: rest, k, d, h => by
      simp only [List.map_cons, List.nodup_cons] at h
      by_cases hk : k0 = k
      · subst hk
        have hz : countKey rest k0 = 0 := countKey_zero_of_not_mem rest k0 h.1
        simp [touchList, countKey, List.filter] at *
        exact hz
      · have h1 : countKey (touchList rest k d) k = 1 :=
          countKey_touchList_self rest k d h.2
        simp [touchList, countKey, List.filter, hk] at *
        exact h1

theorem decodeState_sensors (p : List Nat) (t : Nat) (st : SystemState)
    (hc : 26 ≤ p.length ∧ byteAt p 0 = 153 ∧ byteAt p 1 = 4 ∧ byteAt p 2 = 5)
    (hmac : macOf p ≠ ffMac) :
    (decodeState p t st).sensors = touchList st.sensors (macOf p) (t + 300) := by
  rw [decodeState, decodeEvents_accept t hc hmac]
  simp only [List.foldl_cons, List.foldl_nil]
  rw [batteryEvent_sensors, pressureEvent_sensors, humidityEvent_sensors,
    tempEvent_sensors, sensors_touch]

/-- C4: a valid decoded reading sets the identity's deadline to now + 300,
creating the entry when absent; touching the same identity at t1 < t2
leaves exactly one entry for it, with deadline t2 + 300. -/
theorem registry_touch (p : List Nat) (t1 t2 : Nat) (st : SystemState)
    (hlen : 26 ≤ p.length)
    (htag : byteAt p 0 = 153 ∧ byteAt p 1 = 4 ∧ byteAt p 2 = 5)
    (hmac : macOf p ≠ ffMac)
    (hnd : (st.sensors.map Prod.fst).Nodup)
    (_hlt : t1 < t2) :
    lookupKey (decodeState p t1 st).sensors (macOf p) = some (t1 + 300) ∧
    countKey (decodeState p t2 (decodeState p t1 st)).sensors (macOf p) = 1 ∧
    lookupKey (decodeState p t2 (decodeState p t1 st)).sensors (macOf p) = some (t2 + 300) := by
  have hs1 : (decodeState p t1 st).sensors = touchList st.sensors (macOf p) (t1 + 300) :=
    decodeState_sensors p t1 st ⟨hlen, htag⟩ hmac
  have hs2 : (decodeState p t2 (decodeState p t1 st)).sensors =
      touchList (decodeState p t1 st).sensors (macOf p) (t2 + 300) :=
    decodeState_sensors p t2 _ ⟨hlen, htag⟩ hmac
  refine ⟨?_, ?_, ?_⟩
  · rw [hs1]; exact lookupKey_touchList_self st.sensors (macOf p) (t1 + 300)
  · rw [hs2, hs1]
    exact countKey_touchList_self _ _ _
      (touchList_keys_nodup st.sensors (macOf p) (t1 + 300) hnd)
  · rw [hs2]; exact lookupKey_touchList_self _ (macOf p) (t2 + 300)

/-- C4 witness: two touches of the sample identity at times 0 and 1. -/
theorem registry_touch_witness :
    countKey (decodeState samplePayload 1 (decodeState samplePayload 0 emptyState)).sensors
        (macOf samplePayload) = 1 ∧
    lookupKey (decodeState samplePayload 1 (decodeState samplePayload 0 emptyState)).sensors
        (macOf samplePayload) = some 301 :=
  ⟨(registry_touch samplePayload 0 1 emptyState
      (by decide) (by decide) (by decide) (by decide) (by decide)).2.1,
   (registry_touch samplePayload 0 1 emptyState
      (by decide) (by decide) (by decide) (by decide) (by decide)).2.2⟩

theorem sweepEvents_mem (r : Registry) (now : Nat) :
    ∀ e ∈ sweepEvents r now, ∃ q lbl, e = Event.clearM q lbl := by
  intro e he
  rw [sweepEvents] at he
  rcases List.mem_flatten.mp he with ⟨l, hl, hel⟩
  rcases List.mem_map.mp hl with ⟨p, _, hp⟩
  rw [← hp] at hel
  simp only [clearAllEvents, List.mem_cons, List.not_mem_nil, or_false] at hel
  rcases hel with h | h | h | h <;> exact ⟨_, _, h⟩

theorem sensors_foldl_clears : ∀ (evs : List Event) (st : SystemState),
    (∀ e ∈ evs, ∃ q lbl, e = Event.clearM q lbl) →
    (evs.foldl applyEvent st).sensors = st.sensors
  | [], st, _ => rfl
  | e :: rest, st, h => by
      obtain ⟨q, lbl, he⟩ := h e (List.mem_cons_self _ _)
      subst he
      rw [List.foldl_cons,
        sensors_foldl_clears rest _ (fun e2 h2 => h (by exact e2) (List.mem_cons_of_mem _ h2))]
      rfl

theorem metrics_foldl_clears_none : ∀ (evs : List Event) (st : SystemState)
    (l : String) (q : Quantity),
    (∀ e ∈ evs, ∃ q2 lbl, e = Event.clearM q2 lbl) →
    st.metrics l q = none →
    (evs.foldl applyEvent st).metrics l q = none
  | [], st, l, q, _, hn => hn
  | e :: rest, st, l, q, h, hn => by
      obtain ⟨q2, lbl, he⟩ := h e (List.mem_cons_self _ _)
      subst he
      rw [List.foldl_cons]
      refine metrics_foldl_clears_none rest _ l q
        (fun e2 h2 => h e2 (List.mem_cons_of_mem _ h2)) ?_
      simp only [applyEvent]
      split
      · rfl
      · exact hn

theorem metrics_foldl_clear_mem : ∀ (evs : List Event) (st : SystemState)
    (l : String) (q : Quantity),
    (∀ e ∈ evs, ∃ q2 lbl, e = Event.clearM q2 lbl) →
    Event.clearM q l ∈ evs →
    (evs.foldl applyEvent st).metrics l q = none
  | [], _, _, _, _, hmem => absurd hmem (List.not_mem_nil _)
  | e :: rest, st, l, q, h, hmem => by
      rw [List.foldl_cons]
      rcases List.mem_cons.mp hmem with he | he
      · subst he
        refine metrics_foldl_clears_none rest _ l q
          (fun e2 h2 => h e2 (List.mem_cons_of_mem _ h2)) ?_
        simp [applyEvent]
      · exact metrics_foldl_clear_mem rest _ l q
          (fun e2 h2 => h e2 (List.mem_cons_of_mem _ h2)) he

theorem clear_mem_sweepEvents (r : Registry) (now : Nat) (mac : List Nat) (d : Nat)
    (hmem : (mac, d) ∈ r) (hexp : d < now) (q : Quantity) :
    Event.clearM q (macString mac) ∈ sweepEvents r now := by
  rw [sweepEvents]
  refine List.mem_flatten.mpr ⟨clearAllEvents mac, ?_, ?_⟩
  · refine List.mem_map.mpr ⟨(mac, d), ?_, rfl⟩
    exact List.mem_filter.mpr ⟨hmem, by simpa using hexp⟩
  · cases q <;> simp [clearAllEvents]

/-- C3: a sweep at time now removes exactly the registry entries whose
deadline is strictly below now (entries with deadline ≥ now all survive),
and clears all four metrics for every removed identity's label. -/
theorem sweep_exact (st : SystemState) (now : Nat) :
    (∀ (mac : List Nat) (d : Nat),
      (mac, d) ∈ (sweepState st now).sensors ↔ ((mac, d) ∈ st.sensors ∧ now ≤ d)) ∧
    (∀ (mac : List Nat) (d : Nat), (mac, d) ∈ st.sensors → d < now →
      ∀ q : Quantity, (sweepState st now).metrics (macString mac) q = none) := by
  have hsens : ((sweepEvents st.sensors now).foldl applyEvent st).sensors = st.sensors :=
    sensors_foldl_clears _ _ (sweepEvents_mem _ _)
  constructor
  · intro mac d
    show (mac, d) ∈ (((sweepEvents st.sensors now).foldl applyEvent st).sensors).filter
        (fun p => decide (now ≤ p.2)) ↔ _
    rw [hsens, List.mem_filter]
    simp
  · intro mac d hmem hexp q
    exact metrics_foldl_clear_mem _ _ _ _ (sweepEvents_mem _ _)
      (clear_mem_sweepEvents st.sensors now mac d hmem hexp q)

/-- C3 witness: an entry with deadline 5 swept at time 10 has its
temperature metric cleared, and an entry with deadline 10 survives. -/
theorem sweep_exact_witness :
    ((sweepState ⟨[([1, 2, 3, 4, 5, 6], 5)], fun _ _ => some 3⟩ 10).metrics
        (macString [1, 2, 3, 4, 5, 6]) Quantity.temperature = none) ∧
    (([1, 2, 3, 4, 5, 6], 10) ∈
        (sweepState ⟨[([1, 2, 3, 4, 5, 6], 10)], fun _ _ => some 3⟩ 10).sensors ↔
      (([1, 2, 3, 4, 5, 6], 10) ∈
          (⟨[([1, 2, 3, 4, 5, 6], 10)], fun _ _ => some 3⟩ : SystemState).sensors ∧
        10 ≤ 10)) :=
  ⟨(sweep_exact ⟨[([1, 2, 3, 4, 5, 6], 5)], fun _ _ => some 3⟩ 10).2
      [1, 2, 3, 4, 5, 6] 5 (List.mem_cons_self _ _) (by omega) Quantity.temperature,
   (sweep_exact ⟨[([1, 2, 3, 4, 5, 6], 10)], fun _ _ => some 3⟩ 10).1 [1, 2, 3, 4, 5, 6] 10⟩

theorem decodeEvents_missingMac (p : List Nat) (t : Nat) (hmac : macOf p = ffMac) :
    decodeEvents p t = [] := by
  by_cases hc : 26 ≤ p.length ∧ byteAt p 0 = 153 ∧ byteAt p 1 = 4 ∧ byteAt p 2 = 5
  · rw [decodeEvents, if_pos hc, if_pos hmac]
  · rw [decodeEvents, if_neg hc]

theorem tempEvent_ne_touch (b0 b1 : Nat) (lbl : String) (mac : List Nat) (d : Nat) :
    tempEvent b0 b1 lbl ≠ Event.touch mac d := by
  unfold tempEvent; split <;> simp

theorem humidityEvent_ne_touch (b0 b1 : Nat) (lbl : String) (mac : List Nat) (d : Nat) :
    humidityEvent b0 b1 lbl ≠ Event.touch mac d := by
  unfold humidityEvent; split <;> simp

theorem pressureEvent_ne_touch (b0 b1 : Nat) (lbl : String) (mac : List Nat) (d : Nat) :
    pressureEvent b0 b1 lbl ≠ Event.touch mac d := by
  unfold pressureEvent; split <;> simp

theorem batteryEvent_ne_touch (b0 b1 : Nat) (lbl : String) (mac : List Nat) (d : Nat) :
    batteryEvent b0 b1 lbl ≠ Event.touch mac d := by
  unfold batteryEvent; split <;> simp

theorem mem_touchList : ∀ (r : Registry) (k : List Nat) (d : Nat) (mac : List Nat) (dd : Nat),
    (mac, dd) ∈ touchList r k d → (∃ d0, (mac, d0) ∈ r) ∨ mac = k
  | [], k, d, mac, dd => by
      intro h
      rw [touchList] at h
      rcases List.mem_cons.mp h with h1 | h1
      · injection h1 with h2 h3
        exact Or.inr h2
      · exact absurd h1 (List.not_mem_nil _)
  | (k0, d0) :: rest, k, d, mac, dd => by
      intro hm
      by_cases h : k0 = k
      · rw [touchList, if_pos h] at hm
        rcases List.mem_cons.mp hm with h1 | h1
        · injection h1 with h2 h3
          exact Or.inr (h2.trans h)
        · exact Or.inl ⟨dd, List.mem_cons_of_mem _ h1⟩
      · rw [touchList, if_neg h] at hm
        rcases List.mem_cons.mp hm with h1 | h1
        · injection h1 with h2 h3
          exact Or.inl ⟨d0, by rw [h2]; exact List.mem_cons_self _ _⟩
        · rcases mem_touchList rest k d mac dd h1 with ⟨d2, h2⟩ | h2
          · exact Or.inl ⟨d2, List.mem_cons_of_mem _ h2⟩
          · exact Or.inr h2

theorem mem_sensors_foldl : ∀ (evs : List Event) (st : SystemState) (mac : List Nat) (d : Nat),
    (mac, d) ∈ (evs.foldl applyEvent st).sensors →
    (∃ d0, (mac, d0) ∈ st.sensors) ∨ ∃ d0, Event.touch mac d0 ∈ evs
  | [], st, mac, d => fun h => Or.inl ⟨d, h⟩
  | e :: rest, st, mac, d => by
      intro h
      rw [List.foldl_cons] at h
      rcases mem_sensors_foldl rest (applyEvent st e) mac d h with ⟨d0, h0⟩ | ⟨d0, h0⟩
      · cases e with
        | touch k dd =>
            rcases mem_touchList st.sensors k dd mac d0 h0 with ⟨d1, h1⟩ | h1
            · exact Or.inl ⟨d1, h1⟩
            · exact Or.inr ⟨dd, by rw [h1]; exact List.mem_cons_self _ _⟩
        | setM q lbl v => exact Or.inl ⟨d0, h0⟩
        | clearM q lbl => exact Or.inl ⟨d0, h0⟩
      · exact Or.inr ⟨d0, List.mem_cons_of_mem _ h0⟩

theorem gotMessageEvents_touch_valid (m : List Nat) (t : Nat) (mac : List Nat) (d : Nat)
    (hmem : Event.touch mac d ∈ gotMessageEvents m t) : mac ≠ ffMac := by
  rw [gotMessageEvents] at hmem
  split at hmem
  · simp at hmem
  split at hmem
  · simp at hmem
  split at hmem
  · split at hmem
    · simp at hmem
    · rename_i hff
      simp only [List.mem_cons, List.not_mem_nil, or_false] at hmem
      rcases hmem with h | h | h | h | h
      · rw [(Event.touch.injEq _ _ _ _).mp h |>.1]
        exact hff
      · exact absurd h.symm (tempEvent_ne_touch _ _ _ _ _)
      · exact absurd h.symm (humidityEvent_ne_touch _ _ _ _ _)
      · exact absurd h.symm (pressureEvent_ne_touch _ _ _ _ _)
      · exact absurd h.symm (batteryEvent_ne_touch _ _ _ _ _)
  · simp at hmem

/-- C5: a payload whose 6 identity bytes are all 0xFF is dropped whole —
the state (registry and metrics) is unchanged — and consequently no
reachable state's registry contains the all-ones identity. -/
theorem missing_identity :
    (∀ (p : List Nat) (t : Nat) (st : SystemState),
      macOf p = ffMac → decodeState p t st = st) ∧
    (∀ st : SystemState, Reachable st → ∀ d : Nat, (ffMac, d) ∉ st.sensors) := by
  constructor
  · intro p t st hmac
    rw [decodeState, decodeEvents_missingMac p t hmac]
    rfl
  · intro st h
    induction h with
    | init => intro d hd; simp [emptyState] at hd
    | @msg m t st0 _ ih =>
        intro d hd
        rw [gotMessageState] at hd
        rcases mem_sensors_foldl _ _ _ _ hd with ⟨d0, hd0⟩ | ⟨d0, hmem⟩
        · exact ih d0 hd0
        · exact gotMessageEvents_touch_valid m t ffMac d0 hmem rfl
    | @sweep now st0 _ ih =>
        intro d hd
        have hsens : ((sweepEvents st0.sensors now).foldl applyEvent st0).sensors
            = st0.sensors := sensors_foldl_clears _ _ (sweepEvents_mem _ _)
        have hd2 : (ffMac, d) ∈ (((sweepEvents st0.sensors now).foldl applyEvent
            st0).sensors).filter (fun p => decide (now ≤ p.2)) := hd
        rw [hsens] at hd2
        exact ih d (List.mem_filter.mp hd2).1

/-- C5 witness: the sample payload with all-ones identity leaves the
state untouched, and the empty (initial, reachable) registry does not
contain the all-ones identity. -/
theorem missing_identity_witness :
    decodeState ffPayload 0 emptyState = emptyState ∧
      (ffMac, 300) ∉ emptyState.sensors :=
  ⟨missing_identity.1 ffPayload 0 emptyState (by decide),
   missing_identity.2 emptyState Reachable.init 300⟩

/-- Is this instruction a registry touch? -/
def isTouch : Event → Bool
  | .touch _ _ => true
  | _ => false

/-- Is this instruction a metric set or clear? -/
def isMetricInstr : Event → Bool
  | .touch _ _ => false
  | _ => true

/-- The ordering stated by the claim: every registry touch comes after
every metric instruction, i.e. no touch is ever followed by a metric
set/clear in the trace. -/
def touchAfterMetrics (evs : List Event) : Prop :=
  evs.Pairwise (fun a b => ¬(isTouch a = true ∧ isMetricInstr b = true))

/-- C9 counterexample: on the sample accepted payload the trace issued by
the decoder has the registry touch first, followed by the four metric
instructions, so the touch does not happen after the metric instructions. -/
theorem touch_order_cex : ¬ touchAfterMetrics (decodeEvents samplePayload 0) := by
  intro h
  rw [decodeEvents_accept 0 (by decide) (by decide)] at h
  rcases List.pairwise_cons.mp h with ⟨h1, _⟩
  refine h1 (tempEvent (byteAt samplePayload 3) (byteAt samplePayload 4)
      (macString (macOf samplePayload))) (List.mem_cons_self _ _) ⟨rfl, ?_⟩
  rw [tempEvent, if_neg (by decide)]
  rfl

/-- C9 (amended): for every accepted message with a valid identity, the
registry touch is issued before the quantities are processed — the trace
begins with the touch and everything after it is a metric set or clear. -/
theorem touch_order (p : List Nat) (t : Nat)
    (hlen : 26 ≤ p.length)
    (htag : byteAt p 0 = 153 ∧ byteAt p 1 = 4 ∧ byteAt p 2 = 5)
    (hmac : macOf p ≠ ffMac) :
    (decodeEvents p t).head? = some (Event.touch (macOf p) (t + 300)) ∧
    ∀ e ∈ (decodeEvents p t).tail, isMetricInstr e = true := by
  rw [decodeEvents_accept t ⟨hlen, htag⟩ hmac]
  refine ⟨rfl, ?_⟩
  intro e he
  simp only [List.tail_cons, List.mem_cons, List.not_mem_nil, or_false] at he
  rcases he with h | h | h | h
  · rw [h, tempEvent]; split <;> rfl
  · rw [h, humidityEvent]; split <;> rfl
  · rw [h, pressureEvent]; split <;> rfl
  · rw [h, batteryEvent]; split <;> rfl

/-- C9 witness at the sample payload: trace begins with the touch. -/
theorem touch_order_witness :
    (decodeEvents samplePayload 0).head? =
        some (Event.touch (macOf samplePayload) 300) ∧
      ∀ e ∈ (decodeEvents samplePayload 0).tail, isMetricInstr e = true :=
  touch_order samplePayload 0 (by decide) (by decide) (by decide)

/-- Inverse of `hexChar` on the hex-digit characters. -/
def unhexChar (c : Char) : Nat :=
  if 97 ≤ c.toNat then c.toNat - 87 else c.toNat - 48

/-- Value of a big-endian list of hex-digit characters. -/
def ofHexChars (l : List Char) : Nat :=
  l.foldl (fun a c => a * 16 + unhexChar c) 0

theorem unhexChar_hexChar (d : Nat) (h : d < 16) : unhexChar (hexChar d) = d := by
  interval_cases d <;> decide

theorem hexChar_ne_colon (d : Nat) : hexChar d ≠ ':' := by
  rcases Nat.lt_or_ge d 16 with h | h
  · interval_cases d <;> decide
  · have hf : hexChar d = 'f' := by
      rw [hexChar]
      repeat rw [if_neg (by omega)]
    rw [hf]
    decide

theorem ofHexChars_append (l : List Char) (c : Char) :
    ofHexChars (l ++ [c]) = ofHexChars l * 16 + unhexChar c := by
  rw [ofHexChars, List.foldl_append]
  rfl

theorem ofHexChars_hexStrAux : ∀ (fuel n : Nat), n ≤ fuel →
    ofHexChars (hexStrAux fuel n) = n
  | 0, n, h => by
      have h0 : n = 0 := by omega
      rw [h0, hexStrAux]
      rfl
  | fuel + 1, n, h => by
      rw [hexStrAux]
      by_cases h0 : n = 0
      · rw [if_pos h0, h0]
        rfl
      · rw [if_neg h0, ofHexChars_append,
          ofHexChars_hexStrAux fuel (n / 16) (by omega),
          unhexChar_hexChar _ (by omega)]
        omega

theorem ofHexChars_hexStr (n : Nat) : ofHexChars (hexStr n) = n := by
  rw [hexStr]
  by_cases h0 : n = 0
  · rw [if_pos h0, h0]
    decide
  · rw [if_neg h0]
    exact ofHexChars_hexStrAux n n le_rfl

theorem hexStr_inj {a b : Nat} (h : hexStr a = hexStr b) : a = b := by
  have h2 := congrArg ofHexChars h
  rwa [ofHexChars_hexStr, ofHexChars_hexStr] at h2

theorem hexStrAux_no_colon : ∀ (fuel n : Nat), ∀ c ∈ hexStrAux fuel n, c ≠ ':'
  | 0, n => by rw [hexStrAux]; simp
  | fuel + 1, n => by
      rw [hexStrAux]
      split
      · simp
      · intro c hc
        rcases List.mem_append.mp hc with h | h
        · exact hexStrAux_no_colon fuel (n / 16) c h
        · simp only [List.mem_cons, List.not_mem_nil, or_false] at h
          rw [h]
          exact hexChar_ne_colon _

theorem hexStr_no_colon (n : Nat) : ∀ c ∈ hexStr n, c ≠ ':' := by
  rw [hexStr]
  split
  · intro c hc
    simp only [List.mem_cons, List.not_mem_nil, or_false] at hc
    rw [hc]
    decide
  · exact hexStrAux_no_colon n n

theorem colon_split : ∀ (a b x y : List Char),
    (∀ c ∈ a, c ≠ ':') → (∀ c ∈ b, c ≠ ':') →
    a ++ ':' :: x = b ++ ':' :: y → a = b ∧ x = y
  | [], [], x, y, _, _, h => by simpa using h
  | [], c :: b, x, y, _, hb, h => by
      simp only [List.nil_append, List.cons_append, List.cons.injEq] at h
      exact absurd h.1.symm (hb c (List.mem_cons_self _ _))
  | a0 :: a, [], x, y, ha, _, h => by
      simp only [List.nil_append, List.cons_append, List.cons.injEq] at h
      exact absurd h.1 (ha a0 (List.mem_cons_self _ _))
  | a0 :: a, b0 :: b, x, y, ha, hb, h => by
      simp only [List.cons_append, List.cons.injEq] at h
      obtain ⟨h1, h2⟩ := h
      obtain ⟨h3, h4⟩ := colon_split a b x y
        (fun c hc => ha c (List.mem_cons_of_mem _ hc))
        (fun c hc => hb c (List.mem_cons_of_mem _ hc)) h2
      exact ⟨by rw [h1, h3], h4⟩

theorem list_len6 {α : Type} : ∀ (l : List α), l.length = 6 →
    ∃ a b c d e f, l = [a, b, c, d, e, f]
  | [a, b, c, d, e, f], _ => ⟨a, b, c, d, e, f, rfl⟩
  | [], h => by simp at h
  | [_], h => by simp at h
  | [_, _], h => by simp at h
  | [_, _, _], h => by simp at h
  | [_, _, _, _], h => by simp at h
  | [_, _, _, _, _], h => by simp at h
  | _ :: _ :: _ :: _ :: _ :: _ :: _ :: _, h => by simp at h

/-- C10: `mac_string` is injective on 6-byte identities — two distinct
hardware identities always render to distinct metric labels. -/
theorem mac_string_injective (m1 m2 : List Nat)
    (h1 : m1.length = 6) (h2 : m2.length = 6)
    (_hb1 : ∀ b ∈ m1, b < 256) (_hb2 : ∀ b ∈ m2, b < 256)
    (heq : macString m1 = macString m2) : m1 = m2 := by
  obtain ⟨a0, a1, a2, a3, a4, a5, rfl⟩ := list_len6 m1 h1
  obtain ⟨b0, b1, b2, b3, b4, b5, rfl⟩ := list_len6 m2 h2
  have hc : macChars [a0, a1, a2, a3, a4, a5] = macChars [b0, b1, b2, b3, b4, b5] :=
    congrArg String.data heq
  rw [macChars, macChars] at hc
  simp only [List.getD_cons_zero, List.getD_cons_succ, List.cons_append,
    List.append_assoc] at hc
  obtain ⟨e0, hc⟩ := colon_split _ _ _ _ (hexStr_no_colon a0) (hexStr_no_colon b0) hc
  obtain ⟨e1, hc⟩ := colon_split _ _ _ _ (hexStr_no_colon a1) (hexStr_no_colon b1) hc
  obtain ⟨e2, hc⟩ := colon_split _ _ _ _ (hexStr_no_colon a2) (hexStr_no_colon b2) hc
  obtain ⟨e3, hc⟩ := colon_split _ _ _ _ (hexStr_no_colon a3) (hexStr_no_colon b3) hc
  obtain ⟨e4, e5⟩ := colon_split _ _ _ _ (hexStr_no_colon a4) (hexStr_no_colon b4) hc
  rw [hexStr_inj e0, hexStr_inj e1, hexStr_inj e2, hexStr_inj e3,
    hexStr_inj e4, hexStr_inj e5]

/-- C10 witness: applying injectivity at a concrete identity. -/
theorem mac_string_injective_witness : ([1, 2, 3, 4, 5, 6] : List Nat) = [1, 2, 3, 4, 5, 6] :=
  mac_string_injective [1, 2, 3, 4, 5, 6] [1, 2, 3, 4, 5, 6]
    (by decide) (by decide) (by decide) (by decide) rfl

theorem extRun_append : ∀ (l1 l2 : List Nat) (s : ExtState),
    extRun s (l1 ++ l2) =
      ((extRun (extRun s l1).1 l2).1,
        (extRun s l1).2 ++ (extRun (extRun s l1).1 l2).2)
  | [], l2, s => by simp [extRun]
  | b :: rest, l2, s => by
      simp only [List.cons_append, extRun, List.append_eq,
        extRun_append rest l2 (extStep s b).1, List.append_assoc]

/-- Two scanning states are equivalent when they agree on the control
state, on the pending nibble whenever it can still be consumed, and on
the buffer whenever it can still be pushed to or emitted. -/
def extSim (s t : ExtState) : Prop :=
  s.st = t.st ∧ (s.st = ReadState.Nibble2 → s.n = t.n) ∧
    ((s.st = ReadState.Nibble1 ∨ s.st = ReadState.Nibble2 ∨
      s.st = ReadState.Close1 ∨ s.st = ReadState.Close2) → s.msg = t.msg)

theorem extStep_sim {s t : ExtState} (b : Nat) (h : extSim s t) :
    extSim (extStep s b).1 (extStep t b).1 ∧ (extStep s b).2 = (extStep t b).2 := by
  obtain ⟨hst, hn, hmsg⟩ := h
  rcases s with ⟨ss, sn, sm⟩
  rcases t with ⟨ts, tn, tm⟩
  dsimp only at hst hn hmsg
  subst hst
  cases ss with
  | Interstitial => by_cases hb : b = 123 <;> simp [extStep, extSim, hb]
  | Open1 => by_cases hb : b = 123 <;> simp [extStep, extSim, hb]
  | Open2 => by_cases hb : b = 123 <;> simp [extStep, extSim, hb]
  | Nibble1 =>
      have hm : sm = tm := hmsg (Or.inl rfl)
      subst hm
      cases hnb : nibble b with
      | some nn => simp [extStep, extSim, hnb]
      | none =>
          simp only [extStep, hnb]
          by_cases hb : b = 125 <;> simp [extSim, hb]
  | Nibble2 =>
      have hm : sm = tm := hmsg (Or.inr (Or.inl rfl))
      have hnn : sn = tn := hn rfl
      subst hm
      subst hnn
      cases hnb : nibble b with
      | some nn => simp [extStep, extSim, hnb]
      | none => simp [extStep, extSim, hnb]
  | Close1 =>
      have hm : sm = tm := hmsg (Or.inr (Or.inr (Or.inl rfl)))
      subst hm
      by_cases hb : b = 125 <;> simp [extStep, extSim, hb]
  | Close2 =>
      have hm : sm = tm := hmsg (Or.inr (Or.inr (Or.inr rfl)))
      subst hm
      by_cases hb : b = 125 <;> simp [extStep, extSim, hb]

theorem extRun_sim : ∀ (l : List Nat) {s t : ExtState}, extSim s t →
    (extRun s l).2 = (extRun t l).2 ∧ extSim (extRun s l).1 (extRun t l).1
  | [], _, _, h => ⟨rfl, h⟩
  | b :: rest, s, t, h => by
      obtain ⟨hsim, hout⟩ := extStep_sim b h
      obtain ⟨ih1, ih2⟩ := extRun_sim rest hsim
      exact ⟨by simp only [extRun]; rw [hout, ih1], by simp only [extRun]; exact ih2⟩

theorem extSim_interstitial (n1 n2 : Nat) (m1 m2 : List Nat) :
    extSim ⟨ReadState.Interstitial, n1, m1⟩ ⟨ReadState.Interstitial, n2, m2⟩ := by
  refine ⟨rfl, fun h => ?_, fun h => ?_⟩
  · simp at h
  · rcases h with h | h | h | h <;> simp at h

theorem decodePairs_length : ∀ ds : List Nat, (decodePairs ds).length = ds.length / 2
  | [] => rfl
  | [_] => by simp [decodePairs]
  | _ :: _ :: rest => by
      simp only [decodePairs, List.length_cons, decodePairs_length rest]
      omega

theorem nibbleRun : ∀ (ds : List Nat) (n : Nat) (acc : List Nat),
    (∀ d ∈ ds, (nibble d).isSome = true) → ds.length % 2 = 0 →
    acc.length + ds.length / 2 ≤ 499 →
    (extRun ⟨ReadState.Nibble1, n, acc⟩ (ds ++ [125, 125, 125])).2
        = [acc ++ decodePairs ds] ∧
    (extRun ⟨ReadState.Nibble1, n, acc⟩ (ds ++ [125, 125, 125])).1.st
        = ReadState.Interstitial
  | [], n, acc, _, _, _ => by
      simp [extRun, extStep, nibble, decodePairs]
  | [d], _, _, _, heven, _ => by simp at heven
  | a :: b :: rest, n, acc, hall, heven, hlen => by
      obtain ⟨na, hna2⟩ := Option.isSome_iff_exists.mp (hall a (by simp))
      obtain ⟨nb, hnb2⟩ := Option.isSome_iff_exists.mp (hall b (by simp))
      have hrl : rest.length % 2 = 0 := by
        simp only [List.length_cons] at heven
        omega
      have hlen2 : (acc ++ [(na <<< 4) % 256 ||| nb]).length + rest.length / 2 ≤ 499 := by
        rw [List.length_append]
        simp only [List.length_cons, List.length_nil]
        simp only [List.length_cons] at hlen
        omega
      have hlt : (acc ++ [(na <<< 4) % 256 ||| nb]).length < 500 := by omega
      have ih := nibbleRun rest na (acc ++ [(na <<< 4) % 256 ||| nb])
        (fun d hd => hall d (by simp [hd])) hrl hlen2
      have hframe : extRun ⟨ReadState.Nibble1, n, acc⟩ ((a :: b :: rest) ++ [125, 125, 125])
          = extRun ⟨ReadState.Nibble1, na, acc ++ [(na <<< 4) % 256 ||| nb]⟩
              (rest ++ [125, 125, 125]) := by
        simp only [List.cons_append, extRun, extStep, hna2, hnb2, if_pos hlt,
          Option.toList, List.nil_append, List.append_eq, Prod.mk.eta]
      rw [hframe]
      refine ⟨?_, ih.2⟩
      rw [ih.1]
      simp only [decodePairs, hna2, hnb2, Option.getD_some, List.append_assoc,
        List.cons_append, List.nil_append]

/-- C6: for garbage ++ frame ++ garbage where scanning the leading
garbage emits nothing and ends back in `Interstitial` (no spurious or
boundary-straddling marker), the frame is well formed (triple start
marker, an even number of accepted hex digits decoding to at most 499
bytes, triple end marker), and scanning the trailing garbage emits
nothing, the extractor delivers exactly the frame's decoded payload,
exactly once. -/
theorem extractor_resync (g1 ds g2 : List Nat)
    (hg1e : (extRun extInit g1).2 = [])
    (hg1s : (extRun extInit g1).1.st = ReadState.Interstitial)
    (hall : ∀ d ∈ ds, (nibble d).isSome = true)
    (heven : ds.length % 2 = 0)
    (hcap : ds.length / 2 ≤ 499)
    (hg2e : (extRun extInit g2).2 = []) :
    extract (g1 ++ (123 :: 123 :: 123 :: (ds ++ [125, 125, 125])) ++ g2)
      = [decodePairs ds] := by
  rw [extract, extRun_append, extRun_append, hg1e, List.nil_append]
  rcases hs1 : (extRun extInit g1).1 with ⟨st1, n1, m1⟩
  rw [hs1] at hg1s
  dsimp only at hg1s
  subst hg1s
  have hopen : extRun ⟨ReadState.Interstitial, n1, m1⟩
      (123 :: 123 :: 123 :: (ds ++ [125, 125, 125]))
      = extRun ⟨ReadState.Nibble1, n1, []⟩ (ds ++ [125, 125, 125]) := by
    simp [extRun, extStep, Prod.mk.eta]
  rw [hopen]
  have hbody := nibbleRun ds n1 [] hall heven (by simpa using hcap)
  rcases hF : (extRun ⟨ReadState.Nibble1, n1, []⟩ (ds ++ [125, 125, 125])).1
    with ⟨stF, nF, mF⟩
  have hstF := hbody.2
  rw [hF] at hstF
  dsimp only at hstF
  subst hstF
  have hg2run := (extRun_sim g2 (extSim_interstitial nF 0 mF [])).1
  rw [hbody.1, hg2run]
  show [decodePairs ds] ++ (extRun extInit g2).2 = [decodePairs ds]
  rw [hg2e, List.append_nil]

/-- C6 witness: one frame carrying the byte 0x01 inside inert garbage. -/
theorem extractor_resync_witness :
    extract ([7] ++ (123 :: 123 :: 123 :: ([48, 49] ++ [125, 125, 125])) ++ [9])
      = [decodePairs [48, 49]] :=
  extractor_resync [7] [48, 49] [9]
    (by decide) (by decide) (by decide) (by decide) (by decide) (by decide)

/-- Invariant of the scanner: while a frame is being accumulated (or
closed) the buffer holds at most 499 bytes, and in every state it holds
at most 500. -/
def extInv (s : ExtState) : Prop :=
  ((s.st = ReadState.Nibble1 ∨ s.st = ReadState.Nibble2 ∨
    s.st = ReadState.Close1 ∨ s.st = ReadState.Close2) → s.msg.length ≤ 499) ∧
  s.msg.length ≤ 500

theorem extStep_inv {s : ExtState} (b : Nat) (h : extInv s) :
    extInv (extStep s b).1 ∧ ∀ f, (extStep s b).2 = some f → f.length ≤ 499 := by
  obtain ⟨h1, h2⟩ := h
  rcases s with ⟨ss, sn, sm⟩
  dsimp only at h1 h2
  cases ss with
  | Interstitial =>
      by_cases hb : b = 123 <;> simp [extStep, extInv, hb] <;> omega
  | Open1 =>
      by_cases hb : b = 123 <;> simp [extStep, extInv, hb] <;> omega
  | Open2 =>
      by_cases hb : b = 123 <;> simp [extStep, extInv, hb] <;> omega
  | Nibble1 =>
      have hm : sm.length ≤ 499 := h1 (Or.inl rfl)
      cases hnb : nibble b with
      | some nn => simp [extStep, extInv, hnb] <;> omega
      | none =>
          simp only [extStep, hnb]
          by_cases hb : b = 125 <;> simp [extInv, hb] <;> omega
  | Nibble2 =>
      have hm : sm.length ≤ 499 := h1 (Or.inr (Or.inl rfl))
      cases hnb : nibble b with
      | some nn =>
          by_cases hlt : (sm ++ [(sn <<< 4) % 256 ||| nn]).length < 500
          · simp only [extStep, hnb, if_pos hlt]
            simp only [List.length_append, List.length_cons, List.length_nil] at hlt
            refine ⟨⟨fun _ => ?_, ?_⟩, by simp⟩ <;> simp <;> omega
          · simp only [extStep, hnb, if_neg hlt]
            refine ⟨⟨fun hc => ?_, ?_⟩, by simp⟩
            · rcases hc with hc | hc | hc | hc <;> simp at hc
            · simp
              omega
      | none =>
          simp only [extStep, hnb]
          refine ⟨⟨fun hc => ?_, by simp; omega⟩, by simp⟩
          rcases hc with hc | hc | hc | hc <;> simp at hc
  | Close1 =>
      have hm : sm.length ≤ 499 := h1 (Or.inr (Or.inr (Or.inl rfl)))
      by_cases hb : b = 125 <;> simp [extStep, extInv, hb] <;> omega
  | Close2 =>
      have hm : sm.length ≤ 499 := h1 (Or.inr (Or.inr (Or.inr rfl)))
      by_cases hb : b = 125 <;> simp [extStep, extInv, hb] <;>
        first
          | omega
          | (constructor <;> omega)

theorem extRun_inv : ∀ (l : List Nat) {s : ExtState}, extInv s →
    extInv (extRun s l).1 ∧ ∀ f ∈ (extRun s l).2, f.length ≤ 499
  | [], _, h => ⟨h, by simp [extRun]⟩
  | b :: rest, s, h => by
      obtain ⟨h1, h2⟩ := extStep_inv b h
      obtain ⟨ih1, ih2⟩ := extRun_inv rest h1
      refine ⟨by simpa [extRun] using ih1, ?_⟩
      intro f hf
      simp only [extRun, List.mem_append] at hf
      rcases hf with hf | hf
      · rcases ho : (extStep s b).2 with _ | f2
        · rw [ho] at hf
          simp at hf
        · rw [ho] at hf
          simp only [Option.toList, List.mem_cons, List.not_mem_nil, or_false] at hf
          rw [hf]
          exact h2 f2 ho
      · exact ih2 f hf

theorem extInv_init : extInv extInit := by
  refine ⟨fun h => ?_, ?_⟩ <;> simp [extInit]

set_option maxRecDepth 100000 in
/-- C7 counterexample: a syntactically complete frame whose decoded
payload is exactly 500 bytes is abandoned — the extractor delivers
nothing for it, although the claim says frames of up to 500 decoded
bytes are delivered. -/
theorem length_cap_cex :
    (decodePairs (List.replicate 1000 48)).length = 500 ∧
      extract (123 :: 123 :: 123 :: (List.replicate 1000 48 ++ [125, 125, 125])) = [] :=
  ⟨by decide, by decide⟩

theorem frame_delivered (ds : List Nat)
    (hall : ∀ d ∈ ds, (nibble d).isSome = true)
    (heven : ds.length % 2 = 0)
    (hcap : ds.length / 2 ≤ 499) :
    extract (123 :: 123 :: 123 :: (ds ++ [125, 125, 125])) = [decodePairs ds] := by
  rw [extract]
  have hopen : extRun extInit (123 :: 123 :: 123 :: (ds ++ [125, 125, 125]))
      = extRun ⟨ReadState.Nibble1, 0, []⟩ (ds ++ [125, 125, 125]) := by
    simp [extRun, extStep, extInit, Prod.mk.eta]
  rw [hopen]
  exact (nibbleRun ds 0 [] hall heven (by simpa using hcap)).1

/-- C7 (amended): the scanner's decoded buffer never exceeds 500 bytes on
any input; every buffer delivered to the validator has at most 499 bytes
(so a frame whose payload would reach 500 bytes never reaches it); and a
complete frame of up to 499 decoded bytes is delivered. -/
theorem length_cap (l ds : List Nat)
    (hall : ∀ d ∈ ds, (nibble d).isSome = true)
    (heven : ds.length % 2 = 0)
    (hcap : ds.length / 2 ≤ 499) :
    ((extRun extInit l).1).msg.length ≤ 500 ∧
    (∀ f ∈ extract l, f.length ≤ 499) ∧
    extract (123 :: 123 :: 123 :: (ds ++ [125, 125, 125])) = [decodePairs ds] := by
  obtain ⟨hinv, hframes⟩ := extRun_inv l extInv_init
  refine ⟨hinv.2, hframes, ?_⟩
  exact frame_delivered ds hall heven hcap

/-- C7 witness: a two-digit frame is delivered and the buffer bound holds. -/
theorem length_cap_witness :
    ((extRun extInit [49, 50]).1).msg.length ≤ 500 ∧
    (∀ f ∈ extract [49, 50], f.length ≤ 499) ∧
    extract (123 :: 123 :: 123 :: ([49, 50] ++ [125, 125, 125]))
      = [decodePairs [49, 50]] :=
  length_cap [49, 50] [49, 50] (by decide) (by decide) (by decide)
